import Mathlib

/-
Verification of the `distiller` static-analysis tool (src/distiller.go).

The development shallowly embeds the parts of the program that the claims
concern: the shared entity model, the cross-reference resolver
(`findLinkedFunctions`), the Python (indentation-scoped) extractor helpers,
the PHP (delimiter-scoped) extractor helpers, and the per-file Go pipeline
with its global registries.  Strings are modelled as `List Char`
(Go strings are byte slices; all inputs considered here are ASCII, where
byte and rune positions coincide).  Go's `panic` on out-of-range slicing is
modelled by `Option` results (`none` = panic).  Go map iteration order is
unspecified; wherever the source ranges over a map, the model takes the
iteration order as an explicit list argument.
-/

namespace Distiller

/-- Character class of `strings.TrimLeft(line, " \t")` used by the Python
extractor for indentation counting (distiller.go:1534, 1773). -/
def isIndentChar (c : Char) : Bool := c = ' ' || c = '\t'

/-- ASCII fragment of Go `unicode.IsSpace`, the class trimmed by
`strings.TrimSpace`. -/
def isGoSpace (c : Char) : Bool :=
  c = ' ' || c = '\t' || c = '\n' || c = '\r' || c = '\x0b' || c = '\x0c'

/-- RE2 character class `\s` = `[\t\n\f\r ]` used inside the Go regexes. -/
def isReSpace (c : Char) : Bool :=
  c = ' ' || c = '\t' || c = '\n' || c = '\x0c' || c = '\r'

/-- RE2 character class `\w` = `[0-9A-Za-z_]` (ASCII). -/
def isWordChar (c : Char) : Bool := c.isAlpha || c.isDigit || c = '_'

/-- Model of Go `strings.Split(s, sep)` for a one-character separator:
splitting the empty string yields `[[]]`, and separators are not kept. -/
def splitOnChar (sep : Char) : List Char → List (List Char)
  | [] => [[]]
  | c :: cs =>
    if c = sep then [] :: splitOnChar sep cs
    else
      match splitOnChar sep cs with
      | [] => [[c]]
      | h :: t => (c :: h) :: t

/-- Index of the last occurrence of a character (Go `strings.LastIndex`
restricted to a one-character needle); `none` for Go's `-1`. -/
def lastIdxChar : List Char → Char → Option Nat
  | [], _ => none
  | c :: cs, t =>
    match lastIdxChar cs t with
    | some i => some (i + 1)
    | none => if c = t then some (0 : Nat) else none

/-- Index of the first occurrence of a character (Go `strings.Index` with a
one-character needle); `none` for Go's `-1`. -/
def idxChar : List Char → Char → Option Nat
  | [], _ => none
  | c :: cs, t => if c = t then some (0 : Nat) else (idxChar cs t).map (· + 1)

/-- Model of Go `strings.TrimSpace` (ASCII). -/
def trimSpace (l : List Char) : List Char :=
  ((l.dropWhile isGoSpace).reverse.dropWhile isGoSpace).reverse

/-- Indentation depth of a line, as computed throughout the Python extractor:
`len(line) - len(strings.TrimLeft(line, " \t"))`. -/
def indentOf (l : List Char) : Nat := l.length - (l.dropWhile isIndentChar).length

/-- Model of `countLines` (distiller.go:2745-2747):
`1 + strings.Count(text, "\n")`. -/
def countLines (text : List Char) : Nat := 1 + text.countP (· = '\n')

/-- Fuel-driven scanner behind `countSub`; the fuel only bounds the number
of steps and every step consumes at least one character, so `l.length` fuel
is always sufficient. -/
def countSubF : Nat → List Char → List Char → Nat
  | 0, _, _ => 0
  | _ + 1, _, [] => 0
  | _ + 1, [], _ :: _ => 0
  | fuel + 1, c :: cs, p :: ps =>
    if (p :: ps).isPrefixOf (c :: cs) then 1 + countSubF fuel (cs.drop ps.length) (p :: ps)
    else countSubF fuel cs (p :: ps)

/-- Model of Go `strings.Count` (non-overlapping occurrences of a non-empty
pattern).  The empty-pattern case of `strings.Count` never occurs in the
modelled code; the model returns 0 there. -/
def countSub (l pat : List Char) : Nat := countSubF l.length l pat

/-- Model of Go `strings.Contains`. -/
def hasSub (l pat : List Char) : Bool :=
  match l with
  | [] => pat.isEmpty
  | _ :: cs => pat.isPrefixOf l || hasSub cs pat

/-- Model of Go `strings.SplitN(s, sep, 2)` with a one-character separator:
the part before the first separator and, when a separator exists, the rest. -/
def splitN2 (sep : Char) : List Char → List Char × Option (List Char)
  | [] => ([], none)
  | c :: cs =>
    if c = sep then ([], some cs)
    else
      let r := splitN2 sep cs
      (c :: r.1, r.2)

/-- Model of `appendIfNotExists` (distiller.go:3189-3196). -/
def appendIfNotExists (slice : List String) (item : String) : List String :=
  if item ∈ slice then slice else slice ++ [item]

/-- Model of Go `strings.ToLower` (ASCII-faithful). -/
def strLower (s : String) : String := String.mk (s.data.map Char.toLower)

/-- Model of Go `strings.HasPrefix` (character-list based, so that concrete
instances reduce in the kernel). -/
def strStarts (s pre : String) : Bool := pre.data.isPrefixOf s.data

/-- Model of Go `strings.HasSuffix`. -/
def strEnds (s suf : String) : Bool := suf.data.isSuffixOf s.data

/-- Model of Go `strings.TrimSuffix` on character lists. -/
def trimSufList (l suf : List Char) : List Char :=
  if suf.isSuffixOf l then l.take (l.length - suf.length) else l

/-- Entity model: `Variable` (distiller.go:21-26). -/
structure Variable where
  name : String
  type : String
  scope : String
  line : Nat
deriving DecidableEq

/-- Entity model: `Function` (distiller.go:29-36).  Go's zero value for the
`Receiver` field is the empty string. -/
structure Function where
  name : String
  args : List Variable
  returns : List String
  receiver : String
  line : Nat
  calls : List String
deriving DecidableEq

/-- Entity model: `ControlFlow` (distiller.go:39-43): a recognized construct
with its strictly nested children. -/
inductive ControlFlow where
  | node (kind : String) (line : Nat) (children : List ControlFlow)

/-- Kind tag of a control-flow node. -/
def ControlFlow.kind : ControlFlow → String
  | .node k _ _ => k

/-- Source line of a control-flow node. -/
def ControlFlow.line : ControlFlow → Nat
  | .node _ l _ => l

/-- Children of a control-flow node. -/
def ControlFlow.children : ControlFlow → List ControlFlow
  | .node _ _ cs => cs

/-- Entity model: `Struct` (distiller.go:46-51), the aggregate type. -/
structure Struct where
  name : String
  fields : List Variable
  methods : List Function
  line : Nat
deriving DecidableEq

/-- Entity model: `Interface` (distiller.go:54-57). -/
structure Interface where
  name : String
  methods : List Function
deriving DecidableEq

/-
Cross-reference resolver (`findLinkedFunctions`, distiller.go:2817-2895).

The Go function receives the element's attribute map and the global
function registry map.  Go map iteration order is unspecified, so the model
takes the element's attributes as a list of key/value pairs in some
iteration order, and the registry as a list of registered function names in
some iteration order; registry membership tests (`allFunctions[name]`) are
list membership.
-/

/-- Go map read `element.Attributes[k]`: first binding of the key (attribute
maps bind each key once). -/
def attrLookup (attrs : List (String × String)) (k : String) : Option String :=
  match attrs with
  | [] => none
  | (k', v) :: rest => if k' = k then some v else attrLookup rest k

/-- First match of the regex `([a-zA-Z0-9_]+)\(` in a value: the maximal
word run immediately preceding the first open parenthesis that follows a
word character (distiller.go:2824-2825).  The accumulator holds the current
word run reversed. -/
def firstCallIdentAux : List Char → List Char → Option (List Char)
  | [], _ => none
  | c :: rest, w =>
    if c = '(' then
      if w = [] then firstCallIdentAux rest []
      else some w.reverse
    else if isWordChar c then firstCallIdentAux rest (c :: w)
    else firstCallIdentAux rest []

/-- First call-like identifier in an attribute value (distiller.go:2824-2826). -/
def firstCallIdent (v : List Char) : Option String :=
  (firstCallIdentAux v []).map (fun l => String.mk l)

/-- One registry- or attribute-scan stage of the resolver: fold a candidate
function over a list, appending each produced name without duplicates. -/
def collectStage {α : Type} (g : α → Option String) (l : List α) (acc : List String) : List String :=
  l.foldl (fun a e => match g e with | some n => appendIfNotExists a n | none => a) acc

/-- Stage 1 candidate (distiller.go:2821-2833): an attribute whose key has
the `on` prefix and whose value contains `(` contributes the extracted
identifier when it is a registered function name. -/
def eventAttrCand (reg : List String) (kv : String × String) : Option String :=
  if strStarts kv.1 ("on") && hasSub kv.2.data ['('] then
    match firstCallIdent kv.2.data with
    | some fn => if fn ∈ reg then some fn else none
    | none => none
  else none

/-- Model of Go `filepath.Base` (slash-separated paths). -/
def filepathBase (s : List Char) : List Char :=
  if s = [] then ['.']
  else
    let s1 := (s.reverse.dropWhile (· = '/')).reverse
    if s1 = [] then ['/']
    else (s1.reverse.takeWhile (· ≠ '/')).reverse

/-- Script name of a form action (distiller.go:2853-2854): base name of the
part before `?`, with a `.php` suffix removed. -/
def scriptNameOf (action : String) : List Char :=
  let base := filepathBase ((splitOnChar '?' action.data).headI)
  trimSufList base ((".php").data)

/-- Stage 4 candidate (distiller.go:2857-2862): a registered function whose
lowercased name equals the script name or starts with it plus `_`. -/
def actionCand (script : List Char) (fn : String) : Option String :=
  let fnL := (strLower fn).data
  let scL := script.map Char.toLower
  if fnL = scL || (scL ++ ['_']).isPrefixOf fnL then some fn else none

/-- Stage 5 candidate (distiller.go:2873-2888): compare a lowercased
registry name, with `handler`/`endpoint`/`controller` suffixes trimmed in
that order, against the lowercased last path segment with `.html`/`.php`
trimmed; either-direction containment links the function. -/
def hxCand (lastPart : String) (fn : String) : Option String :=
  let fnL := trimSufList (trimSufList (trimSufList (strLower fn).data (("handler").data)) (("endpoint").data)) (("controller").data)
  let lpL := trimSufList (trimSufList (strLower lastPart).data ((".html").data)) ((".php").data)
  if hasSub fnL lpL || hasSub lpL fnL then some fn else none

/-- Stage 5 (distiller.go:2866-2892): attributes with the `hx-` prefix whose
value contains `/` are matched against every registry entry. -/
def hxStage (reg : List String) (attrs : List (String × String)) (acc : List String) : List String :=
  attrs.foldl (fun a kv =>
    if strStarts kv.1 ("hx-") && hasSub kv.2.data ['/'] then
      collectStage (hxCand (String.mk ((splitOnChar '/' kv.2.data).getLastD []))) reg a
    else a) acc

/-- Stage 2 (distiller.go:2836-2840): exact registry match of the
`data-function` attribute value. -/
def dataFnStage (reg : List String) (attrs : List (String × String)) (acc : List String) : List String :=
  match attrLookup attrs ("data-function") with
  | some fn => if fn ∈ reg then appendIfNotExists acc fn else acc
  | none => acc

/-- Stage 3 (distiller.go:2843-2847): exact registry match of the raw
`onclick` attribute value. -/
def onclickStage (reg : List String) (attrs : List (String × String)) (acc : List String) : List String :=
  match attrLookup attrs ("onclick") with
  | some h => if h ∈ reg then appendIfNotExists acc h else acc
  | none => acc

/-- Stage 4 (distiller.go:2850-2863): a form action naming a `.php` script
links every registered function equal to the script name or prefixed by it
plus `_`. -/
def actionStage (reg : List String) (attrs : List (String × String)) (acc : List String) : List String :=
  match attrLookup attrs ("action") with
  | some a => if strEnds a (".php") || hasSub a.data ((".php?").data)
              then collectStage (actionCand (scriptNameOf a)) reg acc
              else acc
  | none => acc

/-- Model of `findLinkedFunctions` (distiller.go:2817-2895).  `attrs` is the
element's attribute map in some iteration order; `reg` is the function
registry in some iteration order. -/
def findLinkedFunctions (attrs : List (String × String)) (reg : List String) : List String :=
  hxStage reg attrs
    (actionStage reg attrs
      (onclickStage reg attrs
        (dataFnStage reg attrs
          (collectStage (eventAttrCand reg) attrs []))))

/-
Indentation-scoped (Python) extractor helpers.
-/

/-- Lines of a text paired with the position of each line start, as the Go
code obtains them from `strings.Split(content, "\n")` plus running
positions. -/
def linesWithPosAux (pos : Nat) : List (List Char) → List (Nat × List Char)
  | [] => []
  | l :: rest => (pos, l) :: linesWithPosAux (pos + l.length + 1) rest

/-- Lines of a text with their start positions. -/
def linesWithPos (content : List Char) : List (Nat × List Char) :=
  linesWithPosAux 0 (splitOnChar '\n' content)

/-- Kinds of the Python control-flow patterns (distiller.go:1605-1611,
1650-1656).  The Go code stores them in a map and iterates it in Go's
unspecified map order; the model fixes the textual order of the map
literal. -/
def pyCtrlKinds : List String := ["if", "for", "while", "try", "with"]

/-- Per-line match of the pattern `^(\s*)kw\s+.+:` (or `^(\s*)try\s*:` for
`try`): returns the length of the captured leading-whitespace group.  The
multiline regexes are anchored at line starts; on input without blank
lines, where the greedy `\s*` cannot cross a newline, the per-line reading
coincides with the Go regex. -/
def pyLineMatch (kw : List Char) (line : List Char) : Option Nat :=
  let ind := line.takeWhile isReSpace
  let rest := line.drop ind.length
  if kw.isPrefixOf rest then
    let after := rest.drop kw.length
    if kw = ("try").data then
      if (after.dropWhile isReSpace).head? = some ':' then some ind.length else none
    else
      match after.head? with
      | some c => if isReSpace c && (after.drop 2).contains (':') then some ind.length else none
      | none => none
  else none

/-- All matches of one control-flow pattern in a text, as
(start position, indentation) pairs in position order. -/
def pyCtrlMatchesFor (content : List Char) (kw : List Char) : List (Nat × Nat) :=
  (linesWithPos content).filterMap (fun pl => (pyLineMatch kw pl.2).map (fun ind => (pl.1, ind)))

/-- End-of-block scan of `findNestedPythonControlFlow`
(distiller.go:1658-1679): walk the lines after the control statement,
skipping blank lines, until one at indentation ≤ the parent's is found;
`endPos` defaults to the end of the content. -/
def pyBlockEndAux (parentIndent : Nat) (endPos : Nat) : List (List Char) → Nat → Nat
  | [], _linePos => endPos
  | l :: rest, linePos =>
    if trimSpace l = [] then pyBlockEndAux parentIndent endPos rest (linePos + l.length + 1)
    else if indentOf l ≤ parentIndent then linePos
    else pyBlockEndAux parentIndent endPos rest (linePos + l.length + 1)

/-- End position of a Python control-flow block starting at `startPos`. -/
def pyBlockEnd (content : List Char) (startPos parentIndent : Nat) : Nat :=
  match splitOnChar '\n' (content.drop startPos) with
  | [] => content.length
  | l0 :: rest =>
    if rest = [] then content.length
    else pyBlockEndAux parentIndent content.length rest (startPos + l0.length + 1)

/-- Model of `findNestedPythonControlFlow` (distiller.go:1646-1740): find
control-keyword matches within the parent's block that are more indented
than the parent, and recurse into each.  The `fuel` argument bounds the
recursion; every recursive call strictly increases `startPos`, so
`content.length + 1` fuel is always sufficient. -/
def findNestedPy (fuel : Nat) (content : List Char) (startPos parentIndent : Nat) : List ControlFlow :=
  match fuel with
  | 0 => []
  | fuel' + 1 =>
    let endPos0 := pyBlockEnd content startPos parentIndent
    let endPos := if endPos0 > content.length then content.length else endPos0
    if startPos ≥ content.length then []
    else if startPos > endPos then []
    else
      let blockContent := (content.drop startPos).take (endPos - startPos)
      pyCtrlKinds.flatMap (fun kw =>
        (pyCtrlMatchesFor blockContent kw.data).filterMap (fun mi =>
          if mi.2 ≤ parentIndent then none
          else
            let nestedStartPos := startPos + mi.1
            some (ControlFlow.node kw (countLines (content.take nestedStartPos))
              (findNestedPy fuel' content nestedStartPos mi.2))))

/-- Model of `extractPythonControlFlow` (distiller.go:1601-1643): every
control-keyword match anywhere in the file becomes a root node, with
children computed by the nested scan.  Roots are listed per pattern in the
model's fixed pattern order (the Go map iteration order is unspecified). -/
def extractPythonControlFlow (content : List Char) : List ControlFlow :=
  pyCtrlKinds.flatMap (fun kw =>
    (pyCtrlMatchesFor content kw.data).map (fun mi =>
      ControlFlow.node kw (countLines (content.take mi.1))
        (findNestedPy (content.length + 1) content mi.1 mi.2)))

/-- Start of the line containing `pos` (distiller.go:1765-1770). -/
def lineStartOf (content : List Char) (pos : Nat) : Nat :=
  match lastIdxChar (content.take pos) '\n' with
  | none => 0
  | some i => i + 1

/-- Indentation of the text between the line start and `pos`
(distiller.go:1772-1773). -/
def curIndentAt (content : List Char) (pos : Nat) : Nat :=
  indentOf ((content.take pos).drop (lineStartOf content pos))

/-- Decisive-line test of `isPythonWithinFunction` (distiller.go:1787-1791):
a line at indentation ≤ the current one whose trimmed text begins with
`def` in its first three characters. -/
def pyDefAtMost (cur : Nat) (l : List Char) : Bool :=
  indentOf l ≤ cur && (trimSpace l).take 3 = ("def").data

/-- Terminating-line test of `isPythonWithinFunction`
(distiller.go:1794-1797): a line of strictly smaller indentation ending in
a colon. -/
def pyTerm (cur : Nat) (l : List Char) : Bool :=
  indentOf l < cur && (trimSpace l) ≠ [] && (trimSpace l).getLast? = some ':'

/-- Backward scan of `isPythonWithinFunction` (distiller.go:1778-1799) over
the preceding lines in reverse order. -/
def pyScanBackFun (cur : Nat) : List (List Char) → Bool
  | [] => false
  | l :: rest =>
    if trimSpace l = [] then pyScanBackFun cur rest
    else if pyDefAtMost cur l then true
    else if pyTerm cur l then false
    else pyScanBackFun cur rest

/-- Model of `isPythonWithinFunction` (distiller.go:1763-1802). -/
def isPythonWithinFunction (content : List Char) (pos : Nat) : Bool :=
  let lineStart := lineStartOf content pos
  let cur := indentOf ((content.take pos).drop lineStart)
  pyScanBackFun cur ((splitOnChar '\n' (content.take lineStart)).reverse)

/-- Modelled from the claim wording for the within-callable predicate
(spec §8): true iff the position's indentation strictly exceeds that of the
nearest preceding callable-header line of strictly smaller indentation,
with no non-callable block header of smaller-or-equal indentation in
between.  Stated as a backward scan for comparison with the source
function. -/
def pyWithinFunSpecScan (cur : Nat) : List (List Char) → Bool
  | [] => false
  | l :: rest =>
    if trimSpace l = [] then pyWithinFunSpecScan cur rest
    else if indentOf l < cur && (trimSpace l).take 3 = ("def").data then true
    else if indentOf l ≤ cur && (trimSpace l).getLast? = some ':' && !((trimSpace l).take 3 = ("def").data) then false
    else pyWithinFunSpecScan cur rest

/-- The claim's version of the within-callable predicate (see
`pyWithinFunSpecScan`). -/
def isPythonWithinFunctionSpec (content : List Char) (pos : Nat) : Bool :=
  let lineStart := lineStartOf content pos
  let cur := indentOf ((content.take pos).drop lineStart)
  pyWithinFunSpecScan cur ((splitOnChar '\n' (content.take lineStart)).reverse)

/-- Backward scan of `isPythonWithinClass` (distiller.go:1820-1840).  The
source slices `strings.TrimSpace(line)[:5]` without a length guard; on a
trimmed line shorter than five characters Go panics with a slice-bounds
error, modelled by `none`. -/
def pyClassScanBack (cur : Nat) : List (List Char) → Option Bool
  | [] => some false
  | l :: rest =>
    if trimSpace l = [] then pyClassScanBack cur rest
    else if indentOf l < cur then
      if (trimSpace l).length < 5 then none
      else if (trimSpace l).take 5 = ("class").data then some true
      else if (trimSpace l).getLast? = some ':' then some false
      else pyClassScanBack cur rest
    else pyClassScanBack cur rest

/-- Model of `isPythonWithinClass` (distiller.go:1805-1843); `none` models
the runtime panic. -/
def isPythonWithinClass (content : List Char) (pos : Nat) : Option Bool :=
  let lineStart := lineStartOf content pos
  let cur := indentOf ((content.take pos).drop lineStart)
  pyClassScanBack cur ((splitOnChar '\n' (content.take lineStart)).reverse)

/-- First match of the regex `->\s*([^:]+)` in a signature line: the text
after the first `->` that is followed by at least one non-colon character,
up to the next colon.  The Go code trims the capture, so the greedy/lazy
split between `\s*` and `[^:]+` is immaterial. -/
def pyArrowMatch : List Char → Option (List Char)
  | [] => none
  | c :: cs =>
    if c = '-' && cs.head? = some '>' then
      let cap := (cs.drop 1).takeWhile (· ≠ ':')
      if cap = [] then pyArrowMatch cs else some cap
    else pyArrowMatch cs

/-- Model of `extractPythonReturnType` (distiller.go:1493-1510).  The source
slices `content[funcEnd-20 : funcEnd+endOfLine]`; when `funcEnd < 20` the
start index is negative and Go panics with a slice-bounds error, modelled
by `none`. -/
def extractPythonReturnType (content : List Char) (funcEnd : Nat) : Option String :=
  let endOfLine := match idxChar (content.drop funcEnd) '\n' with
                   | none => content.length - funcEnd
                   | some i => i
  if funcEnd < 20 then none
  else
    let searchText := (content.drop (funcEnd - 20)).take (20 + endOfLine)
    some (match pyArrowMatch searchText with
          | some t => String.mk (trimSpace t)
          | none => ("" : String))

/-- Per-argument step of `parsePythonFunctionArgs` (distiller.go:1432-1461):
trim the piece, strip a default value (`=`) and a type hint (`:`), and skip
a parameter whose name begins with `*`. -/
def pyArgStep (lineNumber : Nat) (args : List Variable) (arg0 : List Char) : List Variable :=
  let arg := trimSpace arg0
  if arg = [] then args
  else
    let paramStr := trimSpace (splitN2 '=' arg).1
    let thp := splitN2 ':' paramStr
    let paramName := trimSpace thp.1
    let paramType := match thp.2 with
                     | some t => String.mk (trimSpace t)
                     | none => ("Any" : String)
    if paramName.head? = some '*' then args
    else args ++ [⟨String.mk paramName, paramType, ("parameter" : String), lineNumber⟩]

/-- Model of `parsePythonFunctionArgs` (distiller.go:1422-1465): split the
argument text on commas and process each piece. -/
def parsePythonFunctionArgs (argsStr : List Char) (lineNumber : Nat) : List Variable :=
  if argsStr = [] then []
  else (splitOnChar ',' argsStr).foldl (pyArgStep lineNumber) []

/-- An argument list written in declaration order, joined by `, ` as in a
callable signature. -/
def joinComma : List (List Char) → List Char
  | [] => []
  | [n] => n
  | n :: n2 :: rest => n ++ ',' :: ' ' :: joinComma (n2 :: rest)

/-
Delimiter-scoped (PHP) extractor helpers.
-/

/-- The quote character. -/
def squoteChar : Char := Char.ofNat 39

/-- The double-quote character. -/
def dquoteChar : Char := Char.ofNat 34

/-- The backslash character. -/
def bslashChar : Char := Char.ofNat 92

/-- Case-insensitive prefix test (for the `(?i)` regexes; ASCII). -/
def ciPrefixOf : List Char → List Char → Bool
  | [], _ => true
  | _ :: _, [] => false
  | p :: ps, c :: cs => p.toLower = c.toLower && ciPrefixOf ps cs

/-- Model of `isWithinString` (distiller.go:2749-2757): quote parity of the
text before the position, separately for single and double quotes, each
discounting escaped quotes. -/
def isWithinString (content : List Char) (pos : Nat) : Bool :=
  let pre := content.take pos
  (countSub pre [squoteChar] - countSub pre [bslashChar, squoteChar]) % 2 = 1 ||
  (countSub pre [dquoteChar] - countSub pre [bslashChar, dquoteChar]) % 2 = 1

/-- One step of the block-end brace counter
(distiller.go:2077-2082, 2171-2177). -/
def braceDelta (bc : Nat) (c : Char) : Nat :=
  if c = '{' then bc + 1 else if c = '}' then bc - 1 else bc

/-- The brace-counting loop of `extractPhpFunctionCalls` and
`findNestedPhpControlFlow` (distiller.go:2074-2084, 2168-2178): process
characters from index `i` while the balance is positive, remembering the
last index processed.  The loop counts every `{` and `}`, including those
inside quoted strings. -/
def phpScanEnd : List Char → Nat → Nat → Nat → Nat
  | [], _i, _bc, lastEnd => lastEnd
  | c :: rest, i, bc, lastEnd =>
    if bc = 0 then lastEnd
    else phpScanEnd rest (i + 1) (braceDelta bc c) i

/-- Body bounds of a delimited block: position after the first `{` at or
after `pos`, and the end position computed by the brace counter. -/
def phpBodyBounds (content : List Char) (pos : Nat) : Option (Nat × Nat) :=
  match idxChar (content.drop pos) '{' with
  | none => none
  | some rel =>
    let bodyStart := pos + rel + 1
    some (bodyStart, phpScanEnd (content.drop bodyStart) bodyStart 1 bodyStart)

/-- Block-end location as implemented (distiller.go:2062-2084, 2156-2178):
the position at which the running balance of all delimiters returns to
zero, or the last position when it never does. -/
def phpBlockEnd (content : List Char) (pos : Nat) : Option Nat :=
  (phpBodyBounds content pos).map (fun bb => bb.2)

/-- Running balance of a character sequence starting from `bc`. -/
def balRun (cs : List Char) (bc : Nat) : Nat := cs.foldl braceDelta bc

/-- Modelled from the claim wording for block-end location (spec §4.3(a)):
count nested delimiters from the first open delimiter after the position
until the balance returns to zero, ignoring delimiter occurrences judged to
be inside a quoted string. -/
def phpSpecScan (content : List Char) : Nat → Nat → Nat → Option Nat
  | 0, _, _ => none
  | fuel + 1, i, bc =>
    if h : i < content.length then
      let c := content.get ⟨i, h⟩
      let bc' := if c = '{' && !(isWithinString content i) then bc + 1
                 else if c = '}' && !(isWithinString content i) then bc - 1 else bc
      if bc' = 0 then some i else phpSpecScan content fuel (i + 1) bc'
    else none

/-- The claim's version of block-end location (see `phpSpecScan`). -/
def phpBlockEndSpec (content : List Char) (pos : Nat) : Option Nat :=
  match idxChar (content.drop pos) '{' with
  | none => none
  | some rel => phpSpecScan content content.length (pos + rel + 1) 1

/-- Call-name scanner for the regex `(\$\w+->)?(\w+)\s*\(`
(distiller.go:2093-2094): collect, in order, every maximal word run that is
separated from a following `(` only by whitespace.  The accumulator `w`
holds the current word run reversed; `sawWs` records whitespace seen after
it. -/
def phpCallWordsAux : List Char → List Char → Bool → List String → List String
  | [], _w, _sawWs, acc => acc
  | c :: rest, w, sawWs, acc =>
    if c = '(' then
      if w = [] then phpCallWordsAux rest [] false acc
      else phpCallWordsAux rest [] false (acc ++ [String.mk w.reverse])
    else if isWordChar c then
      if sawWs then phpCallWordsAux rest [c] false acc
      else phpCallWordsAux rest (c :: w) sawWs acc
    else if isReSpace c then
      if w = [] then phpCallWordsAux rest [] false acc
      else phpCallWordsAux rest w true acc
    else phpCallWordsAux rest [] false acc

/-- Model of `extractPhpFunctionCalls` (distiller.go:2062-2109): find the
function body via the brace counter, then record called names, skipping
language constructs, without duplicates. -/
def extractPhpFunctionCalls (content : List Char) (funcStartPos : Nat) : List String :=
  match phpBodyBounds content funcStartPos with
  | none => []
  | some bb =>
    if bb.2 ≤ bb.1 then []
    else
      let body := (content.drop bb.1).take (bb.2 - bb.1)
      (phpCallWordsAux body [] false []).foldl (fun calls n =>
        if n = "if" || n = "for" || n = "while" || n = "foreach" || n = "switch" then calls
        else appendIfNotExists calls n) []

/-- Model of Go `strings.Fields` (ASCII whitespace). -/
def goFieldsAux : List Char → List Char → List (List Char)
  | [], w => if w = [] then [] else [w.reverse]
  | c :: rest, w =>
    if isGoSpace c then
      if w = [] then goFieldsAux rest []
      else w.reverse :: goFieldsAux rest []
    else goFieldsAux rest (c :: w)

/-- Fields of a string, split on whitespace runs. -/
def goFields (l : List Char) : List (List Char) := goFieldsAux l []

/-- Model of `parsePhpFunctionArgs` (distiller.go:2021-2059): split on
commas; an argument whose last whitespace-field carries the `$` sigil and
has a preceding type token is typed, a bare `$`-argument is `mixed`, and
anything else is dropped. -/
def parsePhpFunctionArgs (argsStr : List Char) (lineNumber : Nat) : List Variable :=
  (splitOnChar ',' argsStr).foldl (fun args arg0 =>
    let arg := trimSpace arg0
    if arg = [] then args
    else
      let tp := goFields arg
      if tp.length ≥ 2 && (tp.getLastD []).head? = some '$' then
        args ++ [⟨String.mk (tp.getLastD []),
                  String.mk (List.intercalate [' '] (tp.take (tp.length - 1))),
                  ("parameter" : String), lineNumber⟩]
      else if arg.head? = some '$' then
        args ++ [⟨String.mk arg, ("mixed" : String), ("parameter" : String), lineNumber⟩]
      else args) []

/-- Index of the last occurrence of a substring (Go `strings.LastIndex`);
`none` for Go's `-1`. -/
def lastSubIdx : List Char → List Char → Option Nat
  | [], pat => if pat.isEmpty then some (0 : Nat) else none
  | c :: cs, pat =>
    match lastSubIdx cs pat with
    | some i => some (i + 1)
    | none => if pat.isPrefixOf (c :: cs) then some (0 : Nat) else none

/-- Model of the PHP `isWithinMethod` (distiller.go:2792-2814): brace
counting from the `{` after the last preceding `function `. -/
def isWithinMethod (content : List Char) (pos : Nat) : Bool :=
  match lastSubIdx (content.take pos) (("function ").data) with
  | none => false
  | some lastFuncPos =>
    match idxChar ((content.take pos).drop lastFuncPos) '{' with
    | none => false
    | some obp =>
      let funcPart := (content.take pos).drop (lastFuncPos + obp + 1)
      decide (countSub funcPart ['{'] ≥ countSub funcPart ['}'])

/-- Match of `(public|protected|private)\s+(\$\w+)` anchored at the head of
the list: visibility text, property name, and total matched length. -/
def phpPropTry (kw : List Char) (l : List Char) : Option (List Char × List Char × Nat) :=
  if ciPrefixOf kw l then
    let after := l.drop kw.length
    let ws := after.takeWhile isReSpace
    if ws = [] then none
    else
      let rest := after.drop ws.length
      if rest.head? = some '$' then
        let w := (rest.drop 1).takeWhile isWordChar
        if w = [] then none
        else some (l.take kw.length, '$' :: w, kw.length + ws.length + 1 + w.length)
      else none
  else none

/-- Anchored property match trying the three visibility alternatives in the
regex's order (distiller.go:1900). -/
def phpPropHere (l : List Char) : Option (List Char × List Char × Nat) :=
  match phpPropTry (("public").data) l with
  | some r => some r
  | none =>
    match phpPropTry (("protected").data) l with
    | some r => some r
    | none => phpPropTry (("private").data) l

/-- All property matches in a text, as
(match start, visibility, name). -/
def phpPropMatchesF : Nat → List Char → Nat → List (Nat × List Char × List Char)
  | 0, _, _ => []
  | _ + 1, [], _i => []
  | fuel + 1, c :: cs, i =>
    match phpPropHere (c :: cs) with
    | some r => (i, r.1, r.2.1) :: phpPropMatchesF fuel (cs.drop (r.2.2 - 1)) (i + r.2.2)
    | none => phpPropMatchesF fuel cs (i + 1)

/-- All property matches in a text (fuel instantiated to the text length,
which every step strictly decreases). -/
def phpPropMatchesAux (l : List Char) (i : Nat) : List (Nat × List Char × List Char) :=
  phpPropMatchesF l.length l i

/-- Model of `extractPhpProperties` (distiller.go:1888-1936). -/
def extractPhpProperties (content : List Char) (classStartPos : Nat) : List Variable :=
  match idxChar (content.drop classStartPos) '{' with
  | none => []
  | some obp =>
    let classBodyStart := classStartPos + obp + 1
    (phpPropMatchesAux (content.drop classBodyStart) 0).foldl (fun props m =>
      let propPos := classBodyStart + m.1
      if isWithinMethod content propPos then props
      else props ++ [⟨String.mk m.2.2, ("inferred" : String), String.mk m.2.1,
                      countLines (content.take propPos)⟩]) []

/-- Match of `function\s+(\w+)\s*\((.*?)\)` (case-insensitive keyword)
anchored at the head of the list: method name, argument text, and total
matched length.  The lazy `(.*?)` stops at the first `)`; `.` does not
cross a newline. -/
def phpMethodHere (l : List Char) : Option (List Char × List Char × Nat) :=
  if ciPrefixOf (("function").data) l then
    let after := l.drop 8
    let ws1 := after.takeWhile isReSpace
    if ws1 = [] then none
    else
      let n := (after.drop ws1.length).takeWhile isWordChar
      if n = [] then none
      else
        let after2 := after.drop (ws1.length + n.length)
        let ws2 := after2.takeWhile isReSpace
        let rest := after2.drop ws2.length
        if rest.head? = some '(' then
          let inner := (rest.drop 1).takeWhile (· ≠ ')')
          if inner.contains ('\n') then none
          else if (rest.drop 1).length = inner.length then none
          else some (n, inner, 8 + ws1.length + n.length + ws2.length + 1 + inner.length + 1)
        else none
  else none

/-- All method matches of the regex
`(?i)(public|protected|private)?\s*function\s+(\w+)\s*\((.*?)\)`
(distiller.go:1984) in a text, as (match start, name, argument text).  The
optional visibility group extends the reported match start backwards across
the `\s*` gap; `done` holds the already-scanned text reversed. -/
def phpMethodMatchesF : Nat → List Char → List Char → Nat → List (Nat × List Char × List Char)
  | 0, _, _, _ => []
  | _ + 1, [], _done, _i => []
  | fuel + 1, c :: cs, done, i =>
    match phpMethodHere (c :: cs) with
    | some r =>
      let wsB := done.takeWhile isReSpace
      let back := done.drop wsB.length
      let start :=
        if ciPrefixOf (("public").data.reverse) back then i - wsB.length - 6
        else if ciPrefixOf (("protected").data.reverse) back then i - wsB.length - 9
        else if ciPrefixOf (("private").data.reverse) back then i - wsB.length - 7
        else i
      (start, r.1, r.2.1) ::
        phpMethodMatchesF fuel (cs.drop (r.2.2 - 1)) (((c :: cs).take r.2.2).reverse ++ done) (i + r.2.2)
    | none => phpMethodMatchesF fuel cs (c :: done) (i + 1)

/-- All method matches in a text (fuel instantiated to the text length,
which every step strictly decreases). -/
def phpMethodMatchesAux (l : List Char) (done : List Char) (i : Nat) : List (Nat × List Char × List Char) :=
  phpMethodMatchesF l.length l done i

/-- Model of `extractPhpMethods` (distiller.go:1972-2018). -/
def extractPhpMethods (content : List Char) (classStartPos : Nat) (className : String) : List Function :=
  match idxChar (content.drop classStartPos) '{' with
  | none => []
  | some obp =>
    let classBodyStart := classStartPos + obp + 1
    (phpMethodMatchesAux (content.drop classBodyStart) [] 0).map (fun m =>
      let methodPos := classBodyStart + m.1
      let ln := countLines (content.take methodPos)
      ⟨String.mk m.2.1, parsePhpFunctionArgs m.2.2 ln, [], className, ln,
       extractPhpFunctionCalls content methodPos⟩)

/-- Match of `class\s+(\w+)` (case-insensitive keyword) anchored at the
head of the list: class name and matched length up to the name.  The
optional `extends`/`implements` groups of the source regex
(distiller.go:970) only lengthen the matched region; they do not affect the
captured name or the match start. -/
def phpClassHere (l : List Char) : Option (List Char × Nat) :=
  if ciPrefixOf (("class").data) l then
    let after := l.drop 5
    let ws := after.takeWhile isReSpace
    if ws = [] then none
    else
      let n := (after.drop ws.length).takeWhile isWordChar
      if n = [] then none
      else some (n, 5 + ws.length + n.length)
  else none

/-- All class matches in a text, as (match start, name). -/
def phpClassMatchesF : Nat → List Char → Nat → List (Nat × List Char)
  | 0, _, _ => []
  | _ + 1, [], _i => []
  | fuel + 1, c :: cs, i =>
    match phpClassHere (c :: cs) with
    | some r => (i, r.1) :: phpClassMatchesF fuel (cs.drop (r.2 - 1)) (i + r.2)
    | none => phpClassMatchesF fuel cs (i + 1)

/-- All class matches in a text (fuel instantiated to the text length,
which every step strictly decreases). -/
def phpClassMatchesAux (l : List Char) (i : Nat) : List (Nat × List Char) :=
  phpClassMatchesF l.length l i

/-- Class-extraction portion of `analyzePhpFile` (distiller.go:969-996):
one aggregate type per class match, with properties and methods extracted
relative to the match position. -/
def phpClasses (content : List Char) : List Struct :=
  (phpClassMatchesAux content 0).map (fun m =>
    ⟨String.mk m.2, extractPhpProperties content m.1,
     extractPhpMethods content m.1 (String.mk m.2), countLines (content.take m.1)⟩)

/-
Tree-based (Go) extractor pipeline and the global registries.
-/

/-- Go map lookup on a registry modelled as an association list with unique
keys. -/
def regLookup {α : Type} (reg : List (String × α)) (k : String) : Option α :=
  match reg with
  | [] => none
  | (k', v) :: rest => if k' = k then some v else regLookup rest k

/-- Go map write `m[k] = v`: replace the existing binding or append a new
one (last-write-wins by name). -/
def regInsert {α : Type} (reg : List (String × α)) (k : String) (v : α) : List (String × α) :=
  match reg with
  | [] => [(k, v)]
  | (k', v') :: rest => if k' = k then (k, v) :: rest else (k', v') :: regInsert rest k v

/-- Model of `strings.TrimPrefix(recvType, "*")` (distiller.go:643). -/
def trimStar (s : String) : String :=
  if ("*").data.isPrefixOf s.data then String.mk (s.data.drop 1) else s

/-- Nodes yielded by the `ast.Inspect` walk of `analyzeGoFile`
(distiller.go:633-726), in traversal order.  The function, struct,
interface and control-flow cases carry their extracted payloads; the
helpers computing those payloads from the external parser's syntax tree
(`extractFunction`, `extractStructFields`, `extractInterfaceMethods`,
`extractNestedControlFlow`) are treated as given data of the parsed file.
`recv` mirrors `x.Recv`: the receiver type text, possibly with a leading
`*`. -/
inductive GoNode where
  | funcDecl (fn : Function) (recv : Option String)
  | structSpec (name : String) (fields : List Variable)
  | interfaceSpec (intf : Interface)
  | ctrlStmt (cf : ControlFlow)

/-- A successfully parsed Go file: imports, top-level variables, and the
inspect-order nodes. -/
structure GoFileAst where
  imports : List String
  globals : List Variable
  nodes : List GoNode

/-- `GoFileSummary` (distiller.go:65-73). -/
structure GoSummary where
  filePath : String
  vars : List Variable
  functions : List Function
  controlFlows : List ControlFlow
  structs : List Struct
  interfaces : List Interface
  imports : List String

/-- One step of the inspect walk (distiller.go:634-724): record the entity
and, for a method whose receiver type is already registered, append the
method to the registered struct.  A struct declaration stores a fresh entry
(fields only, no methods, line left at Go's zero value, distiller.go:655-660)
into the registry. -/
def goInspectStep (acc : GoSummary × List (String × Struct)) (n : GoNode) : GoSummary × List (String × Struct) :=
  match n with
  | .funcDecl fn recv =>
    let sm := { acc.1 with functions := acc.1.functions ++ [fn] }
    match recv with
    | some r =>
      let rt := trimStar r
      match regLookup acc.2 rt with
      | some s => (sm, regInsert acc.2 rt { s with methods := s.methods ++ [fn] })
      | none => (sm, acc.2)
    | none => (sm, acc.2)
  | .structSpec nm fs =>
    ({ acc.1 with structs := acc.1.structs ++ [⟨nm, fs, [], 0⟩] }, regInsert acc.2 nm ⟨nm, fs, [], 0⟩)
  | .interfaceSpec it => ({ acc.1 with interfaces := acc.1.interfaces ++ [it] }, acc.2)
  | .ctrlStmt cf => ({ acc.1 with controlFlows := acc.1.controlFlows ++ [cf] }, acc.2)

/-- Model of `analyzeGoFile` (distiller.go:586-736).  On parse failure the
function prints a diagnostic (the `Bool` component) and returns a summary
holding only the file path; otherwise it records imports, globals and the
walked nodes, and finally overwrites each summarized struct's method list
with the registry entry's when that is non-empty (distiller.go:728-733). -/
def analyzeGoFile (reg : List (String × Struct)) (filePath : String) (parsed : Option GoFileAst) : GoSummary × List (String × Struct) × Bool :=
  match parsed with
  | none => (⟨filePath, [], [], [], [], [], []⟩, reg, true)
  | some ast =>
    let init : GoSummary := ⟨filePath, ast.globals, [], [], [], [], ast.imports⟩
    let r := ast.nodes.foldl goInspectStep (init, reg)
    let sm := { r.1 with structs := r.1.structs.map (fun s =>
        match regLookup r.2 s.name with
        | some u => if u.methods.length > 0 then { s with methods := u.methods } else s
        | none => s) }
    (sm, r.2, false)

/-- The run-scoped registries touched by the Go path (distiller.go:169-179,
478-483). -/
structure GoState where
  allFunctions : List (String × Function)
  allStructs : List (String × Struct)

/-- Processing of one `.go` file in the directory walk
(distiller.go:470-483): analyze the file, then store its functions and
structs into the global registries (last-write-wins by name). -/
def processGoFile (st : GoState) (file : String × Option GoFileAst) : (GoSummary × Bool) × GoState :=
  let r := analyzeGoFile st.allStructs file.1 file.2
  let fns := r.1.functions.foldl (fun m fn => regInsert m fn.name fn) st.allFunctions
  let sts := r.1.structs.foldl (fun m s => regInsert m s.name s) r.2.1
  ((r.1, r.2.2), ⟨fns, sts⟩)

/-- The first pass of the run over a list of Go files, in processing order:
the per-file summaries (with their diagnostic flags) and the final registry
state. -/
def runGo : List (String × Option GoFileAst) → GoState → List (GoSummary × Bool) × GoState
  | [], st => ([], st)
  | f :: rest, st =>
    let r := processGoFile st f
    let rr := runGo rest r.2
    (r.1 :: rr.1, rr.2)

/-- The empty initial registry state of a run (distiller.go:268-272). -/
def goInit : GoState := ⟨[], []⟩

/-
Concrete inputs used by the scenario claims and counterexamples.
-/

/-- Scenario B input of the spec: a callable with an indented `if` and a
doubly-indented `for`. -/
def pyScenarioB : List Char := ("def outer():\n    if x:\n        for i in y:\n").data

/-- A Python file whose first callable signature ends at offset 8, within
the first 20 characters. -/
def pyDefShort : List Char := ("def f():\n    pass").data

/-- A Python text with a short non-blank line (`x=1`) at indentation 0
preceding a position of indentation 2. -/
def pyShortLineCex : List Char := ("x=1\n  X").data

/-- A Python text whose line 2 sits at indentation 0 directly below a
`def` header that is also at indentation 0. -/
def pyWithinCex : List Char := ("def f():\nx").data

/-- Scenario A input of the spec: a delimiter-language class with one
method. -/
def phpScenarioA : List Char := ("class Foo \x7b public function bar($x) \x7b baz(); \x7d \x7d").data

/-- A delimited block containing a close delimiter inside a double-quoted
string before the real close delimiter. -/
def phpStringCex : List Char := ("f() \x7b \"a\x7d\" ; bar(); \x7d").data

/-- A method on receiver type `T`, declared in a file of its own. -/
def goMethodFn : Function := ⟨"m", [], [], "T", 5, []⟩

/-- A Go file declaring only the method `m` on receiver `T`. -/
def goFileM : String × Option GoFileAst :=
  ("m.go", some ⟨[], [], [GoNode.funcDecl goMethodFn (some ("T"))]⟩)

/-- A Go file declaring only the struct `T`. -/
def goFileT : String × Option GoFileAst :=
  ("t.go", some ⟨[], [], [GoNode.structSpec ("T") []]⟩)

/-
Supporting lemmas for the cross-reference resolver.
-/

theorem mem_appendIfNotExists (l : List String) (s x : String) :
    x ∈ appendIfNotExists l s ↔ x ∈ l ∨ x = s := by
  by_cases h : s ∈ l
  · simp only [appendIfNotExists, if_pos h]
    constructor
    · exact Or.inl
    · rintro (hx | rfl)
      · exact hx
      · exact h
  · simp [appendIfNotExists, if_neg h]

theorem mem_collectStage {α : Type} (g : α → Option String) (l : List α) (acc : List String) (x : String) :
    x ∈ collectStage g l acc ↔ x ∈ acc ∨ ∃ e ∈ l, g e = some x := by
  induction l generalizing acc with
  | nil => simp [collectStage]
  | cons a t ih =>
    rcases hg : g a with _ | n
    · have hfold : collectStage g (a :: t) acc = collectStage g t acc := by
        simp [collectStage, hg]
      rw [hfold, ih]
      constructor
      · rintro (hx | ⟨e, he, hge⟩)
        · exact Or.inl hx
        · exact Or.inr ⟨e, List.mem_cons_of_mem _ he, hge⟩
      · rintro (hx | ⟨e, he, hge⟩)
        · exact Or.inl hx
        · rcases List.mem_cons.mp he with rfl | he'
          · rw [hg] at hge; cases hge
          · exact Or.inr ⟨e, he', hge⟩
    · have hfold : collectStage g (a :: t) acc = collectStage g t (appendIfNotExists acc n) := by
        simp [collectStage, hg]
      rw [hfold, ih]
      constructor
      · rintro (hx | ⟨e, he, hge⟩)
        · rcases (mem_appendIfNotExists acc n x).mp hx with hx' | rfl
          · exact Or.inl hx'
          · exact Or.inr ⟨a, List.mem_cons_self a t, hg⟩
        · exact Or.inr ⟨e, List.mem_cons_of_mem _ he, hge⟩
      · rintro (hx | ⟨e, he, hge⟩)
        · exact Or.inl ((mem_appendIfNotExists acc n x).mpr (Or.inl hx))
        · rcases List.mem_cons.mp he with rfl | he'
          · rw [hg] at hge
            injection hge with hnx
            exact Or.inl ((mem_appendIfNotExists acc n x).mpr (Or.inr hnx.symm))
          · exact Or.inr ⟨e, he', hge⟩

theorem mem_dataFnStage (reg : List String) (attrs : List (String × String)) (acc : List String) (x : String) :
    x ∈ dataFnStage reg attrs acc ↔
      x ∈ acc ∨ (attrLookup attrs ("data-function") = some x ∧ x ∈ reg) := by
  rcases h : attrLookup attrs ("data-function") with _ | fn
  · simp [dataFnStage, h]
  · by_cases hr : fn ∈ reg
    · simp only [dataFnStage, h, if_pos hr, mem_appendIfNotExists, Option.some.injEq]
      constructor
      · rintro (hx | rfl)
        · exact Or.inl hx
        · exact Or.inr ⟨rfl, hr⟩
      · rintro (hx | ⟨rfl, _⟩)
        · exact Or.inl hx
        · exact Or.inr rfl
    · simp only [dataFnStage, h, if_neg hr, Option.some.injEq]
      constructor
      · exact Or.inl
      · rintro (hx | ⟨rfl, hxr⟩)
        · exact hx
        · exact absurd hxr hr

theorem mem_onclickStage (reg : List String) (attrs : List (String × String)) (acc : List String) (x : String) :
    x ∈ onclickStage reg attrs acc ↔
      x ∈ acc ∨ (attrLookup attrs ("onclick") = some x ∧ x ∈ reg) := by
  rcases h : attrLookup attrs ("onclick") with _ | fn
  · simp [onclickStage, h]
  · by_cases hr : fn ∈ reg
    · simp only [onclickStage, h, if_pos hr, mem_appendIfNotExists, Option.some.injEq]
      constructor
      · rintro (hx | rfl)
        · exact Or.inl hx
        · exact Or.inr ⟨rfl, hr⟩
      · rintro (hx | ⟨rfl, _⟩)
        · exact Or.inl hx
        · exact Or.inr rfl
    · simp only [onclickStage, h, if_neg hr, Option.some.injEq]
      constructor
      · exact Or.inl
      · rintro (hx | ⟨rfl, hxr⟩)
        · exact hx
        · exact absurd hxr hr

theorem mem_actionStage (reg : List String) (attrs : List (String × String)) (acc : List String) (x : String) :
    x ∈ actionStage reg attrs acc ↔
      x ∈ acc ∨ ∃ a, attrLookup attrs ("action") = some a ∧
        (strEnds a (".php") || hasSub a.data ((".php?").data)) = true ∧
        ∃ fn ∈ reg, actionCand (scriptNameOf a) fn = some x := by
  rcases h : attrLookup attrs ("action") with _ | a
  · simp [actionStage, h]
  · by_cases hc : (strEnds a (".php") || hasSub a.data ((".php?").data)) = true
    · simp only [actionStage, h, if_pos hc, mem_collectStage, Option.some.injEq]
      constructor
      · rintro (hx | he)
        · exact Or.inl hx
        · exact Or.inr ⟨a, rfl, hc, he⟩
      · rintro (hx | ⟨a', rfl, _, he⟩)
        · exact Or.inl hx
        · exact Or.inr he
    · simp only [actionStage, h, if_neg hc, Option.some.injEq]
      constructor
      · exact Or.inl
      · rintro (hx | ⟨a', rfl, hc', _⟩)
        · exact hx
        · exact absurd hc' hc

theorem mem_hxStage (reg : List String) (attrs : List (String × String)) (acc : List String) (x : String) :
    x ∈ hxStage reg attrs acc ↔ x ∈ acc ∨ ∃ kv ∈ attrs,
      (strStarts kv.1 ("hx-") && hasSub kv.2.data ['/']) = true ∧
      ∃ fn ∈ reg, hxCand (String.mk ((splitOnChar '/' kv.2.data).getLastD [])) fn = some x := by
  induction attrs generalizing acc with
  | nil => simp [hxStage]
  | cons a t ih =>
    have hfold : hxStage reg (a :: t) acc = hxStage reg t
        (if strStarts a.1 ("hx-") && hasSub a.2.data ['/'] then
          collectStage (hxCand (String.mk ((splitOnChar '/' a.2.data).getLastD []))) reg acc
        else acc) := rfl
    rw [hfold]
    by_cases hc : (strStarts a.1 ("hx-") && hasSub a.2.data ['/']) = true
    · rw [if_pos hc, ih]
      constructor
      · rintro (hx | ⟨kv, hkv, hkc, he⟩)
        · rcases (mem_collectStage _ _ _ _).mp hx with hx' | he'
          · exact Or.inl hx'
          · exact Or.inr ⟨a, List.mem_cons_self a t, hc, he'⟩
        · exact Or.inr ⟨kv, List.mem_cons_of_mem _ hkv, hkc, he⟩
      · rintro (hx | ⟨kv, hkv, hkc, he⟩)
        · exact Or.inl ((mem_collectStage _ _ _ _).mpr (Or.inl hx))
        · rcases List.mem_cons.mp hkv with rfl | hkv'
          · exact Or.inl ((mem_collectStage _ _ _ _).mpr (Or.inr he))
          · exact Or.inr ⟨kv, hkv', hkc, he⟩
    · rw [if_neg hc, ih]
      constructor
      · rintro (hx | ⟨kv, hkv, hkc, he⟩)
        · exact Or.inl hx
        · exact Or.inr ⟨kv, List.mem_cons_of_mem _ hkv, hkc, he⟩
      · rintro (hx | ⟨kv, hkv, hkc, he⟩)
        · exact Or.inl hx
        · rcases List.mem_cons.mp hkv with rfl | hkv'
          · exact absurd hkc hc
          · exact Or.inr ⟨kv, hkv', hkc, he⟩

theorem mem_findLinkedFunctions (attrs : List (String × String)) (reg : List String) (x : String) :
    x ∈ findLinkedFunctions attrs reg ↔
      (∃ kv ∈ attrs, eventAttrCand reg kv = some x) ∨
      (attrLookup attrs ("data-function") = some x ∧ x ∈ reg) ∨
      (attrLookup attrs ("onclick") = some x ∧ x ∈ reg) ∨
      (∃ a, attrLookup attrs ("action") = some a ∧
        (strEnds a (".php") || hasSub a.data ((".php?").data)) = true ∧
        ∃ fn ∈ reg, actionCand (scriptNameOf a) fn = some x) ∨
      (∃ kv ∈ attrs, (strStarts kv.1 ("hx-") && hasSub kv.2.data ['/']) = true ∧
        ∃ fn ∈ reg, hxCand (String.mk ((splitOnChar '/' kv.2.data).getLastD [])) fn = some x) := by
  unfold findLinkedFunctions
  rw [mem_hxStage, mem_actionStage, mem_onclickStage, mem_dataFnStage, mem_collectStage]
  simp only [List.not_mem_nil, false_or, or_assoc]

theorem attrLookup_perm (attrs₁ attrs₂ : List (String × String))
    (h : attrs₁.Perm attrs₂) (hN : (attrs₁.map Prod.fst).Nodup) (k : String) :
    attrLookup attrs₁ k = attrLookup attrs₂ k := by
  induction h with
  | nil => rfl
  | cons x p ih =>
    obtain ⟨kx, vx⟩ := x
    rw [List.map_cons] at hN
    have hN2 := (List.nodup_cons.mp hN).2
    by_cases hk : kx = k
    · simp [attrLookup, hk]
    · simp [attrLookup, hk, ih hN2]
  | swap x y l =>
    obtain ⟨kx, vx⟩ := x
    obtain ⟨ky, vy⟩ := y
    rw [List.map_cons, List.map_cons] at hN
    have hxy : ky ≠ kx := by
      have h1 := (List.nodup_cons.mp hN).1
      intro hEq
      exact h1 (by simp [hEq])
    by_cases h1 : ky = k
    · have h2 : kx ≠ k := fun hc => hxy (h1.trans hc.symm)
      simp [attrLookup, h1, h2]
    · by_cases h2 : kx = k
      · simp [attrLookup, h1, h2]
      · simp [attrLookup, h1, h2]
  | trans p q ih1 ih2 =>
    have hN2 := ((p.map Prod.fst).nodup_iff).mp hN
    exact (ih1 hN).trans (ih2 hN2)

theorem eventAttrCand_perm (reg₁ reg₂ : List String) (h : reg₁.Perm reg₂) (kv : String × String) :
    eventAttrCand reg₁ kv = eventAttrCand reg₂ kv := by
  unfold eventAttrCand
  by_cases hc : (strStarts kv.1 ("on") && hasSub kv.2.data ['(']) = true
  · simp only [if_pos hc]
    rcases h2 : firstCallIdent kv.2.data with _ | fn
    · rfl
    · by_cases hm : fn ∈ reg₁
      · simp [hm, h.mem_iff.mp hm]
      · have hm2 : fn ∉ reg₂ := fun hc2 => hm (h.mem_iff.mpr hc2)
        simp [hm, hm2]
  · rw [if_neg hc, if_neg hc]

/-- C1: as stated, the claim is false: with a fixed registry containing
`save_a` and `save_b` and an element whose `action` names `save.php`, two
runs of the resolver that happen to enumerate the registry map in the two
possible orders return the two linked-function lists in different orders.
The registry is the same in both runs (the two enumeration lists are
permutations of one another). -/
theorem C1_counterexample :
    (["save_a", "save_b"] : List String).Perm ["save_b", "save_a"] ∧
    findLinkedFunctions [("action", "save.php")] ["save_a", "save_b"] ≠
      findLinkedFunctions [("action", "save.php")] ["save_b", "save_a"] := by
  constructor
  · exact List.Perm.swap _ _ _
  · decide

/-- C1 (amended): for a fixed attribute map and a fixed function registry,
repeated evaluations of the resolver produce linked-function lists with the
same membership; only the relative order of entries can differ between
runs, because the Go map iteration orders are unspecified. -/
theorem C1_resolver_same_members (attrs₁ attrs₂ : List (String × String)) (reg₁ reg₂ : List String)
    (hA : attrs₁.Perm attrs₂) (hN : (attrs₁.map Prod.fst).Nodup) (hR : reg₁.Perm reg₂) (x : String) :
    x ∈ findLinkedFunctions attrs₁ reg₁ ↔ x ∈ findLinkedFunctions attrs₂ reg₂ := by
  rw [mem_findLinkedFunctions, mem_findLinkedFunctions]
  have hL : ∀ k, attrLookup attrs₁ k = attrLookup attrs₂ k := attrLookup_perm _ _ hA hN
  have hE : ∀ kv, eventAttrCand reg₁ kv = eventAttrCand reg₂ kv := eventAttrCand_perm _ _ hR
  simp only [hL, hE, hA.mem_iff, hR.mem_iff]

/-- Witness for C1 (amended) at the counterexample's registry orders. -/
theorem C1_resolver_same_members_witness :
    (("save_a" : String) ∈ findLinkedFunctions [("action", "save.php")] ["save_a", "save_b"] ↔
      ("save_a" : String) ∈ findLinkedFunctions [("action", "save.php")] ["save_b", "save_a"]) :=
  C1_resolver_same_members _ _ _ _ (List.Perm.refl _) (by decide) (List.Perm.swap _ _ _) _

theorem eventAttrCand_eval (reg : List String) (kv : String × String) (fn : String)
    (h1 : (strStarts kv.1 ("on") && hasSub kv.2.data ['(']) = true)
    (h2 : firstCallIdent kv.2.data = some fn) :
    eventAttrCand reg kv = (if fn ∈ reg then some fn else none) := by
  unfold eventAttrCand
  rw [if_pos h1, h2]

/-- C8: a markup element whose only attribute is `onclick="doThing()"`
links `doThing` iff `doThing` is a registered function name; when neither
`doThing` nor the raw attribute value `doThing()` is registered (so no
other resolver rule applies), the linked-function list stays empty. -/
theorem C8_onclick_linked_iff_registered (reg : List String) :
    (("doThing" : String) ∈ findLinkedFunctions [("onclick", "doThing()")] reg ↔
      ("doThing" : String) ∈ reg) ∧
    (("doThing" : String) ∉ reg → ("doThing()" : String) ∉ reg →
      findLinkedFunctions [("onclick", "doThing()")] reg = []) := by
  have hevEq : eventAttrCand reg (("onclick" : String), ("doThing()" : String)) =
      (if ("doThing" : String) ∈ reg then some ("doThing") else none) :=
    eventAttrCand_eval reg _ _ (by decide) (by decide)
  have hd2 : attrLookup [(("onclick" : String), ("doThing()" : String))] ("data-function") = none := by
    decide
  have hd3 : attrLookup [(("onclick" : String), ("doThing()" : String))] ("onclick") =
      some ("doThing()") := by decide
  have hd4 : attrLookup [(("onclick" : String), ("doThing()" : String))] ("action") = none := by
    decide
  have hmem : ∀ x : String, x ∈ findLinkedFunctions [("onclick", "doThing()")] reg ↔
      ((x = "doThing" ∧ x ∈ reg) ∨ (x = "doThing()" ∧ x ∈ reg)) := by
    intro x
    rw [mem_findLinkedFunctions]
    constructor
    · rintro (⟨kv, hkv, hev⟩ | ⟨hl, hr⟩ | ⟨hl, hr⟩ | ⟨a, ha, _, _⟩ | ⟨kv, hkv, hks, _⟩)
      · obtain rfl := List.mem_singleton.mp hkv
        rw [hevEq] at hev
        by_cases hm : ("doThing" : String) ∈ reg
        · rw [if_pos hm] at hev
          injection hev with hx
          exact Or.inl ⟨hx.symm, hx ▸ hm⟩
        · rw [if_neg hm] at hev
          cases hev
      · rw [hd2] at hl
        cases hl
      · rw [hd3] at hl
        injection hl with hx
        exact Or.inr ⟨hx.symm, hr⟩
      · rw [hd4] at ha
        cases ha
      · obtain rfl := List.mem_singleton.mp hkv
        exact absurd hks (by decide)
    · rintro (⟨rfl, hm⟩ | ⟨rfl, hm⟩)
      · refine Or.inl ⟨("onclick", "doThing()"), List.mem_singleton.mpr rfl, ?_⟩
        rw [hevEq, if_pos hm]
      · exact Or.inr (Or.inr (Or.inl ⟨hd3, hm⟩))
  constructor
  · rw [hmem]
    constructor
    · rintro (⟨_, hm⟩ | ⟨hx, _⟩)
      · exact hm
      · exact absurd hx (by decide)
    · exact fun hm => Or.inl ⟨rfl, hm⟩
  · intro h1 h2
    rw [List.eq_nil_iff_forall_not_mem]
    intro y hy
    rcases (hmem y).mp hy with ⟨rfl, hm⟩ | ⟨rfl, hm⟩
    · exact h1 hm
    · exact h2 hm

/-- Witness for C8 at the empty registry and at a registry containing
`doThing`. -/
theorem C8_onclick_linked_iff_registered_witness :
    (("doThing" : String) ∈ findLinkedFunctions [("onclick", "doThing()")] ["doThing"] ↔
      ("doThing" : String) ∈ (["doThing"] : List String)) ∧
    findLinkedFunctions [("onclick", "doThing()")] [] = [] :=
  ⟨(C8_onclick_linked_iff_registered ["doThing"]).1,
   (C8_onclick_linked_iff_registered []).2 (by decide) (by decide)⟩

/-
C3: nested control-flow shape.
-/

/-- C3: as stated, the claim is false: on scenario B the per-file forest
does not have a single root.  Every control-keyword match becomes a root
(distiller.go:1613-1639), so the nested `for` appears both as the child of
the `if` root and as a second root of its own: the forest has two roots,
not one. -/
theorem C3_counterexample :
    (extractPythonControlFlow pyScenarioB).length = 2 ∧
    (extractPythonControlFlow pyScenarioB).length ≠ 1 := by
  constructor
  · decide
  · decide

/-- C3 (amended): on scenario B the forest has exactly two roots: an `if`
node (line 2) whose only child is the `for` node (line 3) with no children
of its own, and separately the same `for` occurrence as a childless root,
because every control-keyword match anywhere in the file also becomes a
root.  `outer` (a `def` header) is not a control-flow node.  Root order
between pattern kinds follows Go's unspecified map iteration order; the
model fixes the order if, for, while, try, with. -/
theorem C3_forest_shape :
    (extractPythonControlFlow pyScenarioB).map ControlFlow.kind = ["if", "for"] ∧
    (extractPythonControlFlow pyScenarioB).map ControlFlow.line = [2, 3] ∧
    (extractPythonControlFlow pyScenarioB).map (fun n => n.children.map ControlFlow.kind) = [["for"], []] ∧
    (extractPythonControlFlow pyScenarioB).map (fun n => n.children.map ControlFlow.line) = [[3], []] ∧
    (extractPythonControlFlow pyScenarioB).map (fun n => n.children.map (fun c => c.children.length)) = [[0], []] ∧
    ∀ n ∈ extractPythonControlFlow pyScenarioB, ControlFlow.kind n ≠ "def" := by
  refine ⟨by decide, by decide, by decide, by decide, by decide, by decide⟩

/-
C4: pattern-based extractors and runtime failure.
-/

/-- C4: the pattern-based Python extractor does hard-fail.  On a file whose
first callable signature ends at offset 8 (within the first 20 characters),
`extractPythonReturnType` slices `content[funcEnd-20:]` with a negative
start and Go panics (modelled by `none`); and on a text with a short
non-blank line at indentation 0 below a position of indentation 2,
`isPythonWithinClass` slices `strings.TrimSpace(line)[:5]` of a 3-character
line and Go panics. -/
theorem C4_extractors_can_panic :
    extractPythonReturnType pyDefShort 8 = none ∧
    isPythonWithinClass pyShortLineCex 6 = none := by
  constructor
  · decide
  · decide

/-
C5: block-end location.
-/

/-- C5: as stated, the claim is false: the brace-counting loops never
consult the quoted-string heuristic, so a close delimiter inside a
double-quoted string ends the block early.  On `f() { "a}" ; bar(); }` the
implementation stops at position 8 (the `}` inside the string), while the
position demanded by the claim — the minimal zero-balance position ignoring
delimiters judged inside a quoted string — is 20. -/
theorem C5_counterexample :
    phpBlockEnd phpStringCex 0 = some 8 ∧
    phpBlockEndSpec phpStringCex 0 = some 20 ∧
    phpBlockEnd phpStringCex 0 ≠ phpBlockEndSpec phpStringCex 0 := by
  refine ⟨by decide, by decide, by decide⟩

/-
C6: the within-callable predicate.
-/

/-- C6: as stated, the claim is false: the implementation accepts a `def`
header at indentation equal to the position's (distiller.go:1787-1791),
not only strictly smaller.  At the start of line 2 of `def f():\nx`
(indentation 0) the code answers true, while the claim's predicate —
requiring a callable header of strictly smaller indentation — answers
false. -/
theorem C6_counterexample :
    isPythonWithinFunction pyWithinCex 9 = true ∧
    isPythonWithinFunctionSpec pyWithinCex 9 = false := by
  constructor
  · decide
  · decide

/-
C7: scenario A of the delimiter-scoped extractor.
-/

/-- C7: as stated, the claim is false in one detail: the extracted
parameter of method `bar` is recorded under the sigil-carrying name `$x`
(distiller.go:2047-2055), not `x`. -/
theorem C7_counterexample :
    (phpClasses phpScenarioA).map (fun s => s.methods.map (fun m => m.args.map Variable.name)) =
      [[["$x"]]] ∧
    ∀ s ∈ phpClasses phpScenarioA, ∀ m ∈ s.methods, ∀ a ∈ m.args, a.name ≠ "x" := by
  constructor
  · decide
  · decide

/-- C7 (amended): scenario A yields exactly one aggregate type, named
`Foo`, with no fields, whose only method is `bar` with the single parameter
`$x` (type `mixed`) and call list `["baz"]`. -/
theorem C7_scenarioA :
    (phpClasses phpScenarioA).map Struct.name = ["Foo"] ∧
    (phpClasses phpScenarioA).map Struct.fields = [[]] ∧
    (phpClasses phpScenarioA).map Struct.methods =
      [[⟨"bar", [⟨"$x", "mixed", "parameter", 1⟩], [], "Foo", 1, ["baz"]⟩]] := by
  refine ⟨by decide, by decide, by decide⟩

/-
C2: order dependence of method merging.
-/

/-- C2: as stated, the claim is false: with the same two input files — one
declaring only the method `m` on receiver `T`, one declaring only the
struct `T` — the final registry entry for `T` carries the method when the
struct's file is processed first, and loses it when the method's file is
processed first (the method is dropped at distiller.go:646 because the
receiver type is not yet registered). -/
theorem C2_counterexample :
    ((runGo [goFileT, goFileM] goInit).2.allStructs.map (fun kv => (kv.1, kv.2.methods))) =
      [("T", [goMethodFn])] ∧
    ((runGo [goFileM, goFileT] goInit).2.allStructs.map (fun kv => (kv.1, kv.2.methods))) =
      [("T", [])] := by
  constructor
  · decide
  · decide

/-
C2 (amended) and C9: properties of the Go pipeline.
-/

/-- C2 (amended): method merging depends on processing order.  A method is
merged into its aggregate type only when the type is already registered at
the moment the method is visited; with the struct's file first the final
registry entry carries the method, with the method's file first the method
is silently dropped and the final method list is empty. -/
theorem C2_method_merge_order_dependent (T : String) (hT : trimStar T = T)
    (fn : Function) (flds : List Variable) (pm pt : String) :
    (regLookup (runGo [(pt, some ⟨[], [], [GoNode.structSpec T flds]⟩),
        (pm, some ⟨[], [], [GoNode.funcDecl fn (some T)]⟩)] goInit).2.allStructs T).map Struct.methods
      = some [fn] ∧
    (regLookup (runGo [(pm, some ⟨[], [], [GoNode.funcDecl fn (some T)]⟩),
        (pt, some ⟨[], [], [GoNode.structSpec T flds]⟩)] goInit).2.allStructs T).map Struct.methods
      = some [] := by
  constructor
  · simp [runGo, processGoFile, analyzeGoFile, goInspectStep, goInit, regInsert, regLookup, hT]
  · simp [runGo, processGoFile, analyzeGoFile, goInspectStep, goInit, regInsert, regLookup, hT]

/-- Witness for C2 (amended) at the two concrete files of the
counterexample. -/
theorem C2_method_merge_order_dependent_witness :
    (regLookup (runGo [("t.go", some ⟨[], [], [GoNode.structSpec ("T") []]⟩),
        ("m.go", some ⟨[], [], [GoNode.funcDecl goMethodFn (some ("T"))]⟩)] goInit).2.allStructs ("T")).map Struct.methods
      = some [goMethodFn] ∧
    (regLookup (runGo [("m.go", some ⟨[], [], [GoNode.funcDecl goMethodFn (some ("T"))]⟩),
        ("t.go", some ⟨[], [], [GoNode.structSpec ("T") []]⟩)] goInit).2.allStructs ("T")).map Struct.methods
      = some [] :=
  C2_method_merge_order_dependent ("T") (by decide) goMethodFn [] ("m.go") ("t.go")

theorem runGo_append (a b : List (String × Option GoFileAst)) (st : GoState) :
    runGo (a ++ b) st =
      ((runGo a st).1 ++ (runGo b (runGo a st).2).1, (runGo b (runGo a st).2).2) := by
  induction a generalizing st with
  | nil => simp [runGo]
  | cons f t ih => simp [runGo, ih]

theorem processGoFile_none (st : GoState) (path : String) :
    processGoFile st (path, none) = ((⟨path, [], [], [], [], [], []⟩, true), st) := rfl

/-- C9: when one Go file's parse fails, the run records for that file a
summary holding only the file path — no variables, functions, control-flow
nodes, structs, interfaces, or imports — together with a diagnostic, and
continues over the remaining files with the registries unchanged: the
summaries of the other files and the final registry state are exactly those
of the run without the failing file. -/
theorem C9_parse_failure_contained (pre post : List (String × Option GoFileAst))
    (path : String) (st : GoState) :
    (runGo (pre ++ (path, none) :: post) st).1 =
      (runGo pre st).1 ++
        ((⟨path, [], [], [], [], [], []⟩ : GoSummary), true) :: (runGo post (runGo pre st).2).1 ∧
    (runGo (pre ++ (path, none) :: post) st).2 = (runGo (pre ++ post) st).2 := by
  constructor
  · rw [runGo_append]
    simp [runGo, processGoFile_none]
  · rw [runGo_append, runGo_append]
    simp [runGo, processGoFile_none]

/-
C5 (amended): minimality of the implemented block-end location.
-/

theorem phpScanEnd_zero (cs : List Char) (i last : Nat) :
    phpScanEnd cs i 0 last = last := by
  cases cs <;> simp [phpScanEnd]

theorem phpScanEnd_min (cs : List Char) : ∀ (j i bc last : Nat), bc ≠ 0 → j < cs.length →
    balRun (cs.take (j + 1)) bc = 0 → (∀ k, k < j → balRun (cs.take (k + 1)) bc ≠ 0) →
    phpScanEnd cs i bc last = i + j := by
  induction cs with
  | nil =>
    intro j _ _ _ _ hj _ _
    exact absurd hj (by simp)
  | cons c rest ih =>
    intro j i bc last hbc hj h0 hmin
    have hstep : phpScanEnd (c :: rest) i bc last = phpScanEnd rest (i + 1) (braceDelta bc c) i := by
      simp [phpScanEnd, hbc]
    rw [hstep]
    rcases j with _ | j'
    · have h00 : braceDelta bc c = 0 := by
        simpa [balRun] using h0
      rw [h00, phpScanEnd_zero]
      omega
    · have hd : braceDelta bc c ≠ 0 := by
        have := hmin 0 (Nat.succ_pos _)
        simpa [balRun] using this
      have h0' : balRun (rest.take (j' + 1)) (braceDelta bc c) = 0 := by
        simpa [balRun, List.take_succ_cons] using h0
      have hmin' : ∀ k, k < j' → balRun (rest.take (k + 1)) (braceDelta bc c) ≠ 0 := by
        intro k hk
        have := hmin (k + 1) (Nat.succ_lt_succ hk)
        simpa [balRun, List.take_succ_cons] using this
      have hj' : j' < rest.length := by
        simpa using Nat.lt_of_succ_lt_succ hj
      rw [ih j' (i + 1) _ i hd hj' h0' hmin']
      omega

/-- C5 (amended): block-end location counts every nested open/close
delimiter from the first open delimiter after the position — including
delimiters inside quoted strings — and for every well-formed input (one
whose running balance does return to zero) it returns the minimal position
at which the running balance is exactly zero. -/
theorem C5_block_end_minimal (content : List Char) (pos obp j : Nat)
    (hF : idxChar (content.drop pos) '{' = some obp)
    (hj : j < (content.drop (pos + obp + 1)).length)
    (h0 : balRun ((content.drop (pos + obp + 1)).take (j + 1)) 1 = 0)
    (hmin : ∀ k, k < j → balRun ((content.drop (pos + obp + 1)).take (k + 1)) 1 ≠ 0) :
    phpBlockEnd content pos = some (pos + obp + 1 + j) := by
  unfold phpBlockEnd phpBodyBounds
  rw [hF]
  simp only [Option.map_some']
  rw [phpScanEnd_min _ j (pos + obp + 1) 1 (pos + obp + 1) one_ne_zero hj h0 hmin]

/-- Witness for C5 (amended) on the block `{ a(); }`. -/
theorem C5_block_end_minimal_witness :
    phpBlockEnd (("\x7b a(); \x7d").data) 0 = some 7 := by
  have h := C5_block_end_minimal (("\x7b a(); \x7d").data) 0 0 6 (by decide) (by decide) (by decide)
    (by decide)
  simpa using h

/-
C6 (amended): characterization of the implemented within-callable scan.
-/

theorem pyScanBackFun_iff (cur : Nat) (ls : List (List Char)) :
    pyScanBackFun cur ls = true ↔
      ∃ a l b, ls = a ++ l :: b ∧ trimSpace l ≠ [] ∧ pyDefAtMost cur l = true ∧
        ∀ x ∈ a, ¬(trimSpace x ≠ [] ∧ pyDefAtMost cur x = false ∧ pyTerm cur x = true) := by
  induction ls with
  | nil =>
    constructor
    · intro h
      exact absurd h (by simp [pyScanBackFun])
    · rintro ⟨a, l, b, h, -⟩
      cases a <;> simp at h
  | cons l0 rest ih =>
    by_cases hb : trimSpace l0 = []
    · have hstep : pyScanBackFun cur (l0 :: rest) = pyScanBackFun cur rest := by
        simp [pyScanBackFun, hb]
      rw [hstep, ih]
      constructor
      · rintro ⟨a, l, b, rfl, hl, hD, hA⟩
        refine ⟨l0 :: a, l, b, rfl, hl, hD, ?_⟩
        intro x hx
        rcases List.mem_cons.mp hx with rfl | hx'
        · rintro ⟨hne, -, -⟩
          exact hne hb
        · exact hA x hx'
      · rintro ⟨a, l, b, heq, hl, hD, hA⟩
        cases a with
        | nil =>
          injection heq with h1 h2
          subst h1
          exact absurd hb hl
        | cons a0 a' =>
          injection heq with h1 h2
          exact ⟨a', l, b, h2, hl, hD, fun x hx => hA x (List.mem_cons_of_mem _ hx)⟩
    · by_cases hD0 : pyDefAtMost cur l0 = true
      · have hstep : pyScanBackFun cur (l0 :: rest) = true := by
          simp [pyScanBackFun, hb, hD0]
        rw [hstep]
        constructor
        · intro _
          exact ⟨[], l0, rest, rfl, hb, hD0, by simp⟩
        · intro _
          rfl
      · by_cases hT0 : pyTerm cur l0 = true
        · have hstep : pyScanBackFun cur (l0 :: rest) = false := by
            simp [pyScanBackFun, hb, hD0, hT0]
          rw [hstep]
          constructor
          · intro h
            cases h
          · rintro ⟨a, l, b, heq, hl, hD, hA⟩
            cases a with
            | nil =>
              injection heq with h1 h2
              subst h1
              exact absurd hD hD0
            | cons a0 a' =>
              injection heq with h1 h2
              subst h1
              have hD0' : pyDefAtMost cur l0 = false := by
                cases hcase : pyDefAtMost cur l0
                · rfl
                · exact absurd hcase hD0
              exact absurd ⟨hb, hD0', hT0⟩ (hA l0 (List.mem_cons_self _ _))
        · have hstep : pyScanBackFun cur (l0 :: rest) = pyScanBackFun cur rest := by
            simp [pyScanBackFun, hb, hD0, hT0]
          rw [hstep, ih]
          constructor
          · rintro ⟨a, l, b, rfl, hl, hD, hA⟩
            refine ⟨l0 :: a, l, b, rfl, hl, hD, ?_⟩
            intro x hx
            rcases List.mem_cons.mp hx with rfl | hx'
            · rintro ⟨-, -, hT⟩
              exact hT0 hT
            · exact hA x hx'
          · rintro ⟨a, l, b, heq, hl, hD, hA⟩
            cases a with
            | nil =>
              injection heq with h1 h2
              subst h1
              exact absurd hD hD0
            | cons a0 a' =>
              injection heq with h1 h2
              exact ⟨a', l, b, h2, hl, hD, fun x hx => hA x (List.mem_cons_of_mem _ hx)⟩

/-- C6 (amended): the within-callable predicate answers true iff, scanning
the preceding lines backwards, some non-blank line whose trimmed text
begins with `def` at indentation less than OR EQUAL to the position's
occurs with no terminating line — a non-blank, non-`def` line of strictly
smaller indentation ending in a colon — between it and the position.  (The
claim's strictly-smaller requirement on the `def` header is what fails.) -/
theorem C6_within_function_iff (content : List Char) (pos : Nat) :
    isPythonWithinFunction content pos = true ↔
      ∃ a l b, (splitOnChar '\n' (content.take (lineStartOf content pos))).reverse = a ++ l :: b ∧
        trimSpace l ≠ [] ∧ pyDefAtMost (curIndentAt content pos) l = true ∧
        ∀ x ∈ a, ¬(trimSpace x ≠ [] ∧ pyDefAtMost (curIndentAt content pos) x = false ∧
          pyTerm (curIndentAt content pos) x = true) :=
  pyScanBackFun_iff _ _

/-
C10: variadic parameters are omitted.
-/

theorem splitOnChar_of_not_mem (sep : Char) (l : List Char) (h : sep ∉ l) :
    splitOnChar sep l = [l] := by
  induction l with
  | nil => rfl
  | cons c cs ih =>
    have hc : ¬ c = sep := fun hEq => h (hEq ▸ List.mem_cons_self c cs)
    have h' : sep ∉ cs := fun hm => h (List.mem_cons_of_mem _ hm)
    simp [splitOnChar, hc, ih h']

theorem splitOnChar_append_sep (sep : Char) (l1 l2 : List Char) (h : sep ∉ l1) :
    splitOnChar sep (l1 ++ sep :: l2) = l1 :: splitOnChar sep l2 := by
  induction l1 with
  | nil => simp [splitOnChar]
  | cons c cs ih =>
    have hc : ¬ c = sep := fun hEq => h (hEq ▸ List.mem_cons_self c cs)
    have h' : sep ∉ cs := fun hm => h (List.mem_cons_of_mem _ hm)
    simp [splitOnChar, hc, ih h']

theorem dropWhile_eq_self_of (p : Char → Bool) (l : List Char) (h : ∀ c ∈ l, p c = false) :
    l.dropWhile p = l := by
  cases l with
  | nil => rfl
  | cons c cs => simp [List.dropWhile_cons, h c (List.mem_cons_self c cs)]

theorem trimSpace_eq_self (l : List Char) (h : ∀ c ∈ l, isGoSpace c = false) :
    trimSpace l = l := by
  unfold trimSpace
  rw [dropWhile_eq_self_of _ _ h,
    dropWhile_eq_self_of _ _ (fun c hc => h c (List.mem_reverse.mp hc)),
    List.reverse_reverse]

theorem trimSpace_eq_nil (l : List Char) (h : ∀ c ∈ l, isGoSpace c = true) :
    trimSpace l = [] := by
  unfold trimSpace
  have h1 : l.dropWhile isGoSpace = [] := List.dropWhile_eq_nil_iff.mpr h
  rw [h1]
  rfl

theorem trimSpace_space_append (pre l : List Char) (h : ∀ c ∈ pre, isGoSpace c = true) :
    trimSpace (pre ++ l) = trimSpace l := by
  induction pre with
  | nil => rfl
  | cons c cs ih =>
    have hc := h c (List.mem_cons_self c cs)
    have h' := fun x hx => h x (List.mem_cons_of_mem _ hx)
    have hhead : trimSpace (c :: (cs ++ l)) = trimSpace (cs ++ l) := by
      unfold trimSpace
      rw [List.dropWhile_cons, if_pos hc]
    rw [show (c :: cs) ++ l = c :: (cs ++ l) from rfl, hhead]
    exact ih h'

theorem splitN2_of_not_mem (sep : Char) (l : List Char) (h : sep ∉ l) :
    splitN2 sep l = (l, none) := by
  induction l with
  | nil => rfl
  | cons c cs ih =>
    have hc : ¬ c = sep := fun hEq => h (hEq ▸ List.mem_cons_self c cs)
    have h' : sep ∉ cs := fun hm => h (List.mem_cons_of_mem _ hm)
    simp [splitN2, hc, ih h']

theorem pyArgStep_clean (line : Nat) (args : List Variable) (t n : List Char)
    (ht : trimSpace t = n) (hn : n ≠ [])
    (hc : ∀ c ∈ n, isGoSpace c = false ∧ c ≠ '=' ∧ c ≠ ':') :
    pyArgStep line args t =
      if n.head? = some '*' then args
      else args ++ [⟨String.mk n, "Any", "parameter", line⟩] := by
  have hEq : splitN2 '=' n = (n, none) := splitN2_of_not_mem _ _ (fun hm => (hc _ hm).2.1 rfl)
  have hCo : splitN2 ':' n = (n, none) := splitN2_of_not_mem _ _ (fun hm => (hc _ hm).2.2 rfl)
  have hTr : trimSpace n = n := trimSpace_eq_self _ (fun c hcm => (hc c hcm).1)
  by_cases hstar : n.head? = some '*'
  · simp [pyArgStep, ht, hEq, hCo, hTr, hn, hstar]
  · simp [pyArgStep, ht, hEq, hCo, hTr, hn, hstar]

theorem parsePy_fold (line : Nat) (names : List (List Char)) :
    ∀ (pre : List Char) (acc : List Variable),
    (∀ c ∈ pre, isGoSpace c = true) →
    (∀ n ∈ names, n ≠ [] ∧ ∀ c ∈ n, isGoSpace c = false ∧ c ≠ ',' ∧ c ≠ '=' ∧ c ≠ ':') →
    (splitOnChar ',' (pre ++ joinComma names)).foldl (pyArgStep line) acc =
      acc ++ (names.filter (fun n => !(decide (n.head? = some '*')))).map
        (fun n => (⟨String.mk n, "Any", "parameter", line⟩ : Variable)) := by
  induction names with
  | nil =>
    intro pre acc hpre _
    have hnc : ',' ∉ pre := fun hm => by
      have := hpre ',' hm
      simp [isGoSpace] at this
    rw [show joinComma [] = [] from rfl, List.append_nil, splitOnChar_of_not_mem ',' pre hnc]
    have hTn : trimSpace pre = [] := trimSpace_eq_nil pre hpre
    simp [pyArgStep, hTn]
  | cons n rest ih =>
    intro pre acc hpre hgood
    obtain ⟨hne, hch⟩ := hgood n (List.mem_cons_self _ _)
    have hgood' := fun m hm => hgood m (List.mem_cons_of_mem _ hm)
    have hnc : ',' ∉ pre ++ n := by
      intro hm
      rcases List.mem_append.mp hm with hm | hm
      · have := hpre ',' hm
        simp [isGoSpace] at this
      · exact (hch ',' hm).2.1 rfl
    have htrim : trimSpace (pre ++ n) = n := by
      rw [trimSpace_space_append pre n hpre]
      exact trimSpace_eq_self n (fun c hcm => (hch c hcm).1)
    have hstep := pyArgStep_clean line acc (pre ++ n) n htrim hne
      (fun c hcm => ⟨(hch c hcm).1, (hch c hcm).2.2.1, (hch c hcm).2.2.2⟩)
    have hsp : ∀ c ∈ ([' '] : List Char), isGoSpace c = true := by
      intro c hcm
      rw [List.mem_singleton] at hcm
      subst hcm
      decide
    cases rest with
    | nil =>
      rw [show pre ++ joinComma [n] = pre ++ n from rfl, splitOnChar_of_not_mem ',' _ hnc]
      simp only [List.foldl_cons, List.foldl_nil]
      rw [hstep]
      by_cases hstar : n.head? = some '*'
      · simp [hstar, List.filter_cons]
      · simp [hstar, List.filter_cons]
    | cons n2 rest' =>
      have hj : pre ++ joinComma (n :: n2 :: rest') =
          (pre ++ n) ++ ',' :: (' ' :: joinComma (n2 :: rest')) := by
        rw [show joinComma (n :: n2 :: rest') = n ++ ',' :: ' ' :: joinComma (n2 :: rest') from rfl]
        simp
      rw [hj, splitOnChar_append_sep ',' _ _ hnc]
      simp only [List.foldl_cons]
      rw [hstep]
      by_cases hstar : n.head? = some '*'
      · rw [if_pos hstar]
        have hIH := ih [' '] acc hsp hgood'
        rw [show ([' '] ++ joinComma (n2 :: rest')) = (' ' :: joinComma (n2 :: rest')) from rfl] at hIH
        rw [hIH]
        simp [List.filter_cons, hstar]
      · rw [if_neg hstar]
        have hIH := ih [' '] (acc ++ [⟨String.mk n, "Any", "parameter", line⟩]) hsp hgood'
        rw [show ([' '] ++ joinComma (n2 :: rest')) = (' ' :: joinComma (n2 :: rest')) from rfl] at hIH
        rw [hIH]
        simp [List.filter_cons, hstar]

/-- C10: for every callable whose parameters are simple names written in
declaration order (no embedded spaces, commas, defaults or annotations in
the names themselves), the argument parser silently omits every parameter
written with a leading `*` or `**` (variadic and keyword-variadic), and
keeps all remaining parameters in declaration order, each with type `Any`
and scope `parameter`. -/
theorem C10_star_params_omitted (names : List (List Char)) (line : Nat)
    (h : ∀ n ∈ names, n ≠ [] ∧ ∀ c ∈ n, isGoSpace c = false ∧ c ≠ ',' ∧ c ≠ '=' ∧ c ≠ ':') :
    parsePythonFunctionArgs (joinComma names) line =
      (names.filter (fun n => !(decide (n.head? = some '*')))).map
        (fun n => (⟨String.mk n, "Any", "parameter", line⟩ : Variable)) := by
  unfold parsePythonFunctionArgs
  by_cases hempty : joinComma names = []
  · rw [if_pos hempty]
    cases names with
    | nil => rfl
    | cons n rest =>
      exfalso
      obtain ⟨hne, -⟩ := h n (List.mem_cons_self _ _)
      cases rest with
      | nil => exact hne (by simpa [joinComma] using hempty)
      | cons n2 r' =>
        rw [show joinComma (n :: n2 :: r') = n ++ ',' :: ' ' :: joinComma (n2 :: r') from rfl] at hempty
        simp at hempty
  · rw [if_neg hempty]
    have hfold := parsePy_fold line names [] [] (by intro c hc; cases hc) h
    simpa using hfold

/-- Witness for C10 on the signature `x, *args, **kwargs, y`. -/
theorem C10_star_params_omitted_witness :
    parsePythonFunctionArgs (joinComma [("x").data, ("*args").data, ("**kwargs").data, ("y").data]) 7 =
      [⟨"x", "Any", "parameter", 7⟩, ⟨"y", "Any", "parameter", 7⟩] := by
  rw [C10_star_params_omitted _ 7 (by decide)]
  decide

end Distiller
